import Mathlib

/-
Verification development for the protocol-normalization core of the erpc
JSON-RPC gateway (package common: json_rpc.go, and the DRPC vendor client
from package upstream).

The Go code is shallowly embedded:
- dynamic JSON documents become the inductive type Json; sonic.Unmarshal's
  behaviour on the typed targets appearing in the source is modelled by a
  total JSON parser plus typed-field extraction following encoding/json
  semantics (sonic is std-compatible);
- crypto/sha256 is implemented in full (FIPS 180-4) over byte lists, with
  machine words as Nat reduced mod 2^32;
- the hasher threaded through hashValue is modelled by the string of bytes
  written to it: an incremental SHA-256 over a write sequence equals the
  SHA-256 of the concatenation of the writes;
- fallible Go functions returning (T, error) become Except String T.
-/

set_option maxRecDepth 2048

deriving instance DecidableEq for Except

namespace Erpc

/-! ## Bytes, hex, SHA-256 (crypto/sha256, encoding via fmt %x) -/

/-- Reduce a word to 32 bits. -/
def w32 (n : Nat) : Nat := n % 4294967296

/-- Right rotation of a 32-bit word. -/
def rotr (n x : Nat) : Nat := w32 ((x >>> n) ||| (x <<< (32 - n)))

/-- The SHA-256 round constants. -/
def shaK : List Nat :=
  [1116352408, 1899447441, 3049323471, 3921009573, 961987163,
   1508970993, 2453635748, 2870763221, 3624381080, 310598401,
   607225278, 1426881987, 1925078388, 2162078206, 2614888103,
   3248222580, 3835390401, 4022224774, 264347078, 604807628,
   770255983, 1249150122, 1555081692, 1996064986, 2554220882,
   2821834349, 2952996808, 3210313671, 3336571891, 3584528711,
   113926993, 338241895, 666307205, 773529912, 1294757372,
   1396182291, 1695183700, 1986661051, 2177026350, 2456956037,
   2730485921, 2820302411, 3259730800, 3345764771, 3516065817,
   3600352804, 4094571909, 275423344, 430227734, 506948616,
   659060556, 883997877, 958139571, 1322822218, 1537002063,
   1747873779, 1955562222, 2024104815, 2227730452, 2361852424,
   2428436474, 2756734187, 3204031479, 3329325298]

/-- The SHA-256 initial hash state. -/
def shaH0 : List Nat :=
  [1779033703, 3144134277, 1013904242, 2773480762, 1359893119,
   2600822924, 528734635, 1541459225]

/-- Big-endian bytes (most significant first) of a number, `k` bytes wide. -/
def beBytes : Nat → Nat → List Nat
  | 0, _ => []
  | k + 1, n => (n >>> (8 * k)) % 256 :: beBytes k n

/-- SHA-256 padding: append 0x80, zero bytes until the length is 56 mod 64,
then the 64-bit big-endian bit length of the message (the pad length is
computed from l % 64 so that truncating Nat subtraction never bites). -/
def shaPad (msg : List Nat) : List Nat :=
  let l := msg.length
  let padLen := (119 - l % 64) % 64 + 1
  msg ++ (0x80 :: List.replicate (padLen - 1) 0) ++ beBytes 8 (8 * l)

/-- Split a padded message into 64-byte blocks (fuel bounds the recursion;
callers pass enough fuel for the whole list). -/
def chunks64 (fuel : Nat) (l : List Nat) : List (List Nat) :=
  match fuel, l with
  | 0, _ => []
  | _, [] => []
  | f + 1, l => l.take 64 :: chunks64 f (l.drop 64)

/-- Combine groups of 4 bytes, big-endian, into 32-bit words. -/
def wordsOf (fuel : Nat) (l : List Nat) : List Nat :=
  match fuel, l with
  | 0, _ => []
  | _, [] => []
  | f + 1, a :: b :: c :: d :: rest => (((a * 256 + b) * 256 + c) * 256 + d) :: wordsOf f rest
  | _, _ => []

def smallSigma0 (x : Nat) : Nat := (rotr 7 x) ^^^ (rotr 18 x) ^^^ (x >>> 3)

def smallSigma1 (x : Nat) : Nat := (rotr 17 x) ^^^ (rotr 19 x) ^^^ (x >>> 10)

def bigSigma0 (x : Nat) : Nat := (rotr 2 x) ^^^ (rotr 13 x) ^^^ (rotr 22 x)

def bigSigma1 (x : Nat) : Nat := (rotr 6 x) ^^^ (rotr 11 x) ^^^ (rotr 25 x)

/-- Message-schedule extension: grow the 16 block words to 64. -/
def extendSchedule : Nat → List Nat → List Nat
  | 0, w => w
  | f + 1, w =>
    let g := fun i => w.getD i 0
    let t := w.length
    let next := w32 (smallSigma1 (g (t - 2)) + g (t - 7) + smallSigma0 (g (t - 15)) + g (t - 16))
    extendSchedule f (w ++ [next])

/-- One SHA-256 compression round on the 8-word state. -/
def compressStep (st : List Nat) (kw : Nat × Nat) : List Nat :=
  match st with
  | [a, b, c, d, e, f, g, h] =>
    let ch := (e &&& f) ^^^ ((4294967295 - e) &&& g)
    let maj := (a &&& b) ^^^ (a &&& c) ^^^ (b &&& c)
    let t1 := w32 (h + bigSigma1 e + ch + kw.1 + kw.2)
    let t2 := w32 (bigSigma0 a + maj)
    [w32 (t1 + t2), a, b, c, w32 (d + t1), e, f, g]
  | st => st

/-- Process one 64-byte block into the running hash state. -/
def processBlock (h : List Nat) (block : List Nat) : List Nat :=
  let ws := extendSchedule 48 (wordsOf 16 block)
  let st := (shaK.zip ws).foldl compressStep h
  (h.zip st).map fun p => w32 (p.1 + p.2)

/-- SHA-256 of a byte list, as its 32-byte digest. -/
def sha256 (msg : List Nat) : List Nat :=
  let blocks := chunks64 (msg.length / 64 + 2) (shaPad msg)
  let h := blocks.foldl processBlock shaH0
  h.foldr (fun wrd acc => beBytes 4 wrd ++ acc) []

def hexDigit (n : Nat) : Char := "0123456789abcdef".toList.getD n '0'

/-- Lowercase hex encoding of a byte list (fmt %x of a byte array). -/
def hexEncode (l : List Nat) : String :=
  String.mk (l.foldr (fun b acc => hexDigit (b / 16) :: hexDigit (b % 16) :: acc) [])

/-- UTF-8 encoding of a string, as a byte list ([]byte conversion in Go). -/
def utf8Char (c : Char) : List Nat :=
  let n := c.toNat
  if n < 0x80 then [n]
  else if n < 0x800 then [0xC0 ||| (n >>> 6), 0x80 ||| (n &&& 0x3F)]
  else if n < 0x10000 then
    [0xE0 ||| (n >>> 12), 0x80 ||| ((n >>> 6) &&& 0x3F), 0x80 ||| (n &&& 0x3F)]
  else
    [0xF0 ||| (n >>> 18), 0x80 ||| ((n >>> 12) &&& 0x3F),
     0x80 ||| ((n >>> 6) &&& 0x3F), 0x80 ||| (n &&& 0x3F)]

def utf8Bytes (s : String) : List Nat := s.data.flatMap utf8Char

/-- ASCII lower-casing, character by character (models strings.ToLower; the
Go function also folds non-ASCII letters, which none of the claims touch). -/
def goToLower (s : String) : String := String.mk (s.data.map Char.toLower)

/-- strings.HasPrefix, byte for byte (on the character list, which the kernel
can evaluate). -/
def goHasPrefixOf (p s : String) : Bool := p.data.isPrefixOf s.data

/-- The sorted rearrangement of a list of strings: the observable result of
sort.Strings. -/
def sortStrings (ks : List String) : List String := ks.insertionSort (· ≤ ·)

/-! ## JSON documents and the syntax layer of sonic.Unmarshal

A JSON value; numbers keep their raw literal (Go decodes them to float64 or
to integer targets depending on the destination type, so the literal is the
faithful common representation). Object fields are kept in source order,
duplicates included. -/

inductive Json where
  | null
  | bool (b : Bool)
  | num (lit : String)
  | str (s : String)
  | arr (elems : List Json)
  | obj (fields : List (String × Json))

/-- JSON whitespace. -/
def isJsonWs (c : Char) : Bool := c == ' ' || c == '\t' || c == '\n' || c == '\r'

def skipWs : List Char → List Char
  | [] => []
  | c :: rest => if isJsonWs c then skipWs rest else c :: rest

def isDigitChar (c : Char) : Bool := '0' ≤ c && c ≤ '9'

def hexVal (c : Char) : Option Nat :=
  let n := c.toNat
  if 48 ≤ n && n ≤ 57 then some (n - 48)
  else if 97 ≤ n && n ≤ 102 then some (n - 87)
  else if 65 ≤ n && n ≤ 70 then some (n - 55)
  else none

/-- Parse the body of a string literal (after the opening quote), handling
escapes as encoding/json does: unpaired surrogates decode to U+FFFD, paired
surrogates combine. Returns the decoded characters and the remaining input.
The fuel argument only bounds recursion; callers pass enough for the input. -/
def parseStringBody : Nat → List Char → Option (List Char × List Char)
  | 0, _ => none
  | _, [] => none
  | _, '"' :: rest => some ([], rest)
  | fuel + 1, '\\' :: 'u' :: a :: b :: c :: d :: rest => do
    let va ← hexVal a
    let vb ← hexVal b
    let vc ← hexVal c
    let vd ← hexVal d
    let code := ((va * 16 + vb) * 16 + vc) * 16 + vd
    if 0xD800 ≤ code && code ≤ 0xDBFF then
      match rest with
      | '\\' :: 'u' :: e :: f :: g :: h :: rest2 => do
        let ve ← hexVal e
        let vf ← hexVal f
        let vg ← hexVal g
        let vh ← hexVal h
        let code2 := ((ve * 16 + vf) * 16 + vg) * 16 + vh
        if 0xDC00 ≤ code2 && code2 ≤ 0xDFFF then
          let combined := 0x10000 + (code - 0xD800) * 0x400 + (code2 - 0xDC00)
          let (tail, rem) ← parseStringBody fuel rest2
          some (Char.ofNat combined :: tail, rem)
        else do
          let (tail, rem) ← parseStringBody fuel rest
          some ('�' :: tail, rem)
      | _ => do
        let (tail, rem) ← parseStringBody fuel rest
        some ('�' :: tail, rem)
    else if 0xDC00 ≤ code && code ≤ 0xDFFF then do
      let (tail, rem) ← parseStringBody fuel rest
      some ('�' :: tail, rem)
    else do
      let (tail, rem) ← parseStringBody fuel rest
      some (Char.ofNat code :: tail, rem)
  | fuel + 1, '\\' :: e :: rest => do
    let c ← match e with
      | '"' => some '"'
      | '\\' => some '\\'
      | '/' => some '/'
      | 'b' => some (Char.ofNat 8)
      | 'f' => some (Char.ofNat 12)
      | 'n' => some '\n'
      | 'r' => some '\r'
      | 't' => some '\t'
      | _ => none
    let (tail, rem) ← parseStringBody fuel rest
    some (c :: tail, rem)
  | fuel + 1, c :: rest =>
    if c.toNat < 0x20 then none
    else do
      let (tail, rem) ← parseStringBody fuel rest
      some (c :: tail, rem)

/-- Consume the remaining characters of a keyword (null, true, false). -/
def stripKeyword : List Char → List Char → Option (List Char)
  | [], rest => some rest
  | k :: ks, c :: rest => if c == k then stripKeyword ks rest else none
  | _ :: _, [] => none

/-- Parse a JSON number at the head of the input, returning its raw literal.
Grammar: -? (0 | [1-9][0-9]*) (. [0-9]+)? ([eE] [+-]? [0-9]+)? -/
def parseNumber (cs : List Char) : Option (String × List Char) :=
  let (sign, afterSign) :=
    match cs with
    | '-' :: rest => (['-'], rest)
    | _ => ([], cs)
  let intDigits := afterSign.takeWhile isDigitChar
  let afterInt := afterSign.drop intDigits.length
  if intDigits.isEmpty then none
  else if intDigits.length > 1 && intDigits.headD '0' == '0' then none
  else
    let (fracPart, afterFrac) :=
      match afterInt with
      | '.' :: rest =>
        let fd := rest.takeWhile isDigitChar
        if fd.isEmpty then ([], afterInt) else ('.' :: fd, rest.drop fd.length)
      | _ => ([], afterInt)
    match afterFrac with
    | e :: rest =>
      if e == 'e' || e == 'E' then
        let (esign, ebody) :=
          match rest with
          | '+' :: r => (['+'], r)
          | '-' :: r => (['-'], r)
          | _ => ([], rest)
        let ed := ebody.takeWhile isDigitChar
        if ed.isEmpty then none
        else some (String.mk (sign ++ intDigits ++ fracPart ++ e :: esign ++ ed),
                   ebody.drop ed.length)
      else some (String.mk (sign ++ intDigits ++ fracPart), afterFrac)
    | [] => some (String.mk (sign ++ intDigits ++ fracPart), afterFrac)

mutual

/-- Parse one JSON value at the head of the input (leading whitespace already
consumed). The fuel argument only bounds recursion depth; the top-level entry
point passes enough for any input. -/
def parseValue : Nat → List Char → Option (Json × List Char)
  | 0, _ => none
  | fuel + 1, cs =>
    match cs with
    | 'n' :: rest => do
      let rem ← stripKeyword ['u', 'l', 'l'] rest
      some (.null, rem)
    | 't' :: rest => do
      let rem ← stripKeyword ['r', 'u', 'e'] rest
      some (.bool true, rem)
    | 'f' :: rest => do
      let rem ← stripKeyword ['a', 'l', 's', 'e'] rest
      some (.bool false, rem)
    | '"' :: rest => do
      let (body, rem) ← parseStringBody (rest.length + 1) rest
      some (.str (String.mk body), rem)
    | '[' :: rest =>
      (match skipWs rest with
       | ']' :: rem => some (.arr [], rem)
       | other => do
         let (elems, rem) ← parseElems fuel other
         some (.arr elems, rem))
    | '{' :: rest =>
      (match skipWs rest with
       | '}' :: rem => some (.obj [], rem)
       | other => do
         let (fields, rem) ← parseFields fuel other
         some (.obj fields, rem))
    | _ => do
      let (lit, rem) ← parseNumber cs
      some (.num lit, rem)

/-- Parse the comma-separated elements of an array, then the closing bracket. -/
def parseElems : Nat → List Char → Option (List Json × List Char)
  | 0, _ => none
  | fuel + 1, cs => do
    let (v, rem) ← parseValue fuel cs
    match skipWs rem with
    | ',' :: rest => do
      let (more, rem2) ← parseElems fuel (skipWs rest)
      some (v :: more, rem2)
    | ']' :: rest => some ([v], rest)
    | _ => none

/-- Parse the comma-separated members of an object, then the closing brace. -/
def parseFields : Nat → List Char → Option (List (String × Json) × List Char)
  | 0, _ => none
  | fuel + 1, cs =>
    match cs with
    | '"' :: rest => do
      let (keyBody, rem) ← parseStringBody (rest.length + 1) rest
      match skipWs rem with
      | ':' :: rest2 => do
        let (v, rem2) ← parseValue fuel (skipWs rest2)
        match skipWs rem2 with
        | ',' :: rest3 => do
          let (more, rem3) ← parseFields fuel (skipWs rest3)
          some ((String.mk keyBody, v) :: more, rem3)
        | '}' :: rest3 => some ([(String.mk keyBody, v)], rest3)
        | _ => none
      | _ => none
    | _ => none

end

/-- Parse a complete JSON document: one value, surrounded by optional
whitespace, consuming the whole input (the strictness of a top-level
sonic.Unmarshal / json.Unmarshal call). -/
def parseJson (s : String) : Option Json :=
  match parseValue (s.length + 1) (skipWs s.data) with
  | some (v, rest) => if (skipWs rest).isEmpty then some v else none
  | none => none

/-! ## Typed decoding of JSON numbers (encoding/json semantics) -/

def digitsToNat (ds : List Char) : Nat :=
  ds.foldl (fun acc c => 10 * acc + (c.toNat - 48)) 0

/-- Split a JSON number literal into sign, integer digits, fraction digits and
decimal exponent. -/
def splitNumLit (lit : String) : Bool × List Char × List Char × Int :=
  let (neg, cs) :=
    match lit.data with
    | '-' :: rest => (true, rest)
    | cs => (false, cs)
  let intD := cs.takeWhile isDigitChar
  let afterInt := cs.drop intD.length
  let (fracD, afterFrac) :=
    match afterInt with
    | '.' :: rest => (rest.takeWhile isDigitChar, rest.drop (rest.takeWhile isDigitChar).length)
    | _ => ([], afterInt)
  let e10 : Int :=
    match afterFrac with
    | _ :: rest =>
      (match rest with
       | '-' :: ds => -(digitsToNat (ds.takeWhile isDigitChar) : Int)
       | '+' :: ds => (digitsToNat (ds.takeWhile isDigitChar) : Int)
       | ds => (digitsToNat (ds.takeWhile isDigitChar) : Int))
    | [] => 0
  (neg, intD, fracD, e10)

/-- Decoding a JSON number into a Go int: strconv.ParseInt on the literal,
so the literal must be a plain integer (no fraction or exponent) fitting in
int64. -/
def numLitToInt64 (lit : String) : Option Int :=
  let (neg, cs) :=
    match lit.data with
    | '-' :: rest => (true, rest)
    | cs => (false, cs)
  if cs.isEmpty || cs.any (fun c => !isDigitChar c) then none
  else
    let v : Int := if neg then -(digitsToNat cs : Int) else (digitsToNat cs : Int)
    if v < -(2 ^ 63) || v > 2 ^ 63 - 1 then none else v

/-- The int(f) conversion applied to a JSON number decoded as float64:
truncation toward zero of the decimal value. (The rounding of the decimal
literal to the nearest float64 is not modelled; the two agree on all
integers below 2^53, which covers every error code.) -/
def numLitTruncInt (lit : String) : Int :=
  let (neg, intD, fracD, e10) := splitNumLit lit
  let digits := digitsToNat (intD ++ fracD)
  let e : Int := e10 - fracD.length
  let mag : Nat :=
    match e with
    | .ofNat k => digits * 10 ^ k
    | .negSucc k => digits / 10 ^ (k + 1)
  if neg then -(mag : Int) else (mag : Int)

/-- fmt %v rendering of a JSON number decoded as float64 (strconv 'g'
shortest form; rendered exactly from the decimal literal, ignoring float64
rounding, which no claim exercises). -/
def goFmtNum (lit : String) : String :=
  let (neg, intD, fracD, e10) := splitNumLit lit
  let allD := intD ++ fracD
  let lead := allD.dropWhile (fun c => c == '0')
  let sig := (lead.reverse.dropWhile (fun c => c == '0')).reverse
  if sig.isEmpty then (if neg then "-0" else "0")
  else
    let leadZeros := allD.length - lead.length
    let x : Int := (intD.length : Int) - leadZeros - 1 + e10
    let sign := if neg then "-" else ""
    if -4 ≤ x && x < 21 then
      match x with
      | .ofNat k =>
        if sig.length ≤ k + 1 then
          sign ++ String.mk (sig ++ List.replicate (k + 1 - sig.length) '0')
        else
          sign ++ String.mk (sig.take (k + 1)) ++ "." ++ String.mk (sig.drop (k + 1))
      | .negSucc k =>
        sign ++ "0." ++ String.mk (List.replicate k '0' ++ sig)
    else
      let mant :=
        if sig.length = 1 then String.mk sig
        else String.mk (sig.take 1) ++ "." ++ String.mk (sig.drop 1)
      let esign := if x < 0 then "-" else "+"
      let eabs := x.natAbs
      let edigits := if eabs < 10 then "0" ++ toString eabs else toString eabs
      sign ++ mant ++ "e" ++ esign ++ edigits

/-- Last-occurrence lookup: the contents of a Go map built from an object's
fields (later duplicate keys overwrite earlier ones; keys are matched
exactly, maps are case-sensitive). -/
def mapLookupLast (fields : List (String × Json)) (k : String) : Option Json :=
  (fields.filter (fun p => p.1 == k)).getLast? |>.map Prod.snd

/-- Members of a filtered list bound the result of mapLookupLast. -/
lemma sizeOf_mapLookupLast {fields : List (String × Json)} {k : String} {v : Json}
    (h : mapLookupLast fields k = some v) : sizeOf v < sizeOf fields := by
  unfold mapLookupLast at h
  rw [Option.map_eq_some'] at h
  obtain ⟨p, hp, hv⟩ := h
  obtain ⟨hne, hlast⟩ := List.mem_getLast?_eq_getLast hp
  have hmem : p ∈ fields.filter (fun q => q.1 == k) := hlast ▸ List.getLast_mem hne
  have hmem2 : p ∈ fields := List.mem_of_mem_filter hmem
  have := List.sizeOf_lt_of_mem hmem2
  cases p with | mk a b => subst hv; simp at this ⊢; omega

mutual

/-- fmt %v rendering of a decoded interface{} value (fmt sorts map keys). -/
def goFmtV : Json → String
  | .null => "<nil>"
  | .bool b => if b then "true" else "false"
  | .num lit => goFmtNum lit
  | .str s => s
  | .arr xs => "[" ++ goFmtList xs ++ "]"
  | .obj fields =>
    "map[" ++ goFmtMapKeys (sortStrings ((fields.map Prod.fst).dedup)) fields ++ "]"
termination_by v => (sizeOf v, 0)
decreasing_by
  all_goals apply Prod.Lex.left <;> simp <;> omega

/-- Space-separated fmt %v rendering of a slice of values. -/
def goFmtList : List Json → String
  | [] => ""
  | [x] => goFmtV x
  | x :: xs => goFmtV x ++ " " ++ goFmtList xs
termination_by xs => (sizeOf xs, 0)
decreasing_by
  all_goals apply Prod.Lex.left <;> simp <;> omega

/-- Space-separated key:value fmt rendering of a map, over the given sorted
key list (the keys are drawn from the map, so the lookup always succeeds; the
none branch renders the nil interface without recursing). -/
def goFmtMapKeys : List String → List (String × Json) → String
  | [], _ => ""
  | [k], fields =>
    (match hlk : mapLookupLast fields k with
     | some v => k ++ ":" ++ goFmtV v
     | none => k ++ ":" ++ "<nil>")
  | k :: ks, fields =>
    (match hlk : mapLookupLast fields k with
     | some v => k ++ ":" ++ goFmtV v
     | none => k ++ ":" ++ "<nil>") ++ " " ++ goFmtMapKeys ks fields
termination_by ks fields => (sizeOf fields, ks.length)
decreasing_by
  · apply Prod.Lex.left
    exact sizeOf_mapLookupLast hlk
  · apply Prod.Lex.left
    exact sizeOf_mapLookupLast hlk
  · apply Prod.Lex.right
    simp

end

/-! ## JsonRpcResponse and its custom UnmarshalJSON -/

/-- The error payload attached to a response (common.ErrJsonRpcExceptionExternal:
numeric code, message, auxiliary data). -/
structure ErrJsonRpcExceptionExternal where
  code : Int
  message : String
  data : String
  deriving DecidableEq

/-- Modelled from the spec: NewErrJsonRpcExceptionExternal (defined outside the
excerpt) packages a StructuredError from its numeric code, message and
auxiliary data string. -/
def NewErrJsonRpcExceptionExternal (code : Int) (message : String) (data : String) :
    ErrJsonRpcExceptionExternal :=
  ⟨code, message, data⟩

/-- Modelled from the spec: the numeric value of the generic server-side
exception code is defined outside the excerpt; the development only relies on
it being a fixed constant. -/
def JsonRpcErrorServerSideException : Int := -32603

/-- The normalized response envelope. `result` and `errorRaw` mirror the
json.RawMessage fields: present (some) whenever the key appears, a JSON null
included; `id` is the interface{} field, which a JSON null leaves nil. -/
structure JsonRpcResponse where
  jsonrpc : String := ""
  id : Option Json := none
  result : Option Json := none
  error : Option ErrJsonRpcExceptionExternal := none

/-- The intermediate aux struct of UnmarshalJSON: the response fields plus the
error sub-document captured raw. -/
structure AuxResponse where
  jsonrpc : String
  id : Option Json
  result : Option Json
  errorRaw : Option Json

/-- Decode one object member into the aux struct, with encoding/json
semantics: keys are matched case-insensitively to the field tags, a JSON null
leaves a string field untouched and nils an interface or raw field, a
non-string jsonrpc value is a type error, and RawMessage fields capture any
value. -/
def auxApplyField (a : AuxResponse) (k : String) (v : Json) : Option AuxResponse :=
  if goToLower k == "jsonrpc" then
    match v with
    | .null => some a
    | .str s => some { a with jsonrpc := s }
    | _ => none
  else if goToLower k == "id" then
    match v with
    | .null => some { a with id := none }
    | v => some { a with id := some v }
  else if goToLower k == "result" then some { a with result := some v }
  else if goToLower k == "error" then some { a with errorRaw := some v }
  else some a

def auxApplyFields : AuxResponse → List (String × Json) → Option AuxResponse
  | a, [] => some a
  | a, (k, v) :: rest =>
    match auxApplyField a k v with
    | some a2 => auxApplyFields a2 rest
    | none => none

/-- Outcome of sonic.Unmarshal(data, &aux), where aux is a pointer passed by
address: malformed input or a non-object body is an error; a top-level JSON
null sets the pointer itself to nil, so the subsequent field accesses in
UnmarshalJSON dereference a nil pointer. -/
inductive AuxOutcome where
  | fail
  | nilPointer
  | ok (a : AuxResponse)

def decodeAux (v : Json) : AuxOutcome :=
  match v with
  | .null => .nilPointer
  | .obj fields =>
    match auxApplyFields ⟨"", none, none, none⟩ fields with
    | some a => .ok a
    | none => .fail
  | _ => .fail

/-- Special case #1 of the fallback: a bare object carrying code / message /
data at top level (struct with an int and two string fields). -/
structure Sp1Body where
  code : Int
  message : String
  data : String

def sp1ApplyField (a : Sp1Body) (k : String) (v : Json) : Option Sp1Body :=
  if goToLower k == "code" then
    match v with
    | .null => some a
    | .num lit =>
      match numLitToInt64 lit with
      | some n => some { a with code := n }
      | none => none
    | _ => none
  else if goToLower k == "message" then
    match v with
    | .null => some a
    | .str s => some { a with message := s }
    | _ => none
  else if goToLower k == "data" then
    match v with
    | .null => some a
    | .str s => some { a with data := s }
    | _ => none
  else some a

def sp1ApplyFields : Sp1Body → List (String × Json) → Option Sp1Body
  | a, [] => some a
  | a, (k, v) :: rest =>
    match sp1ApplyField a k v with
    | some a2 => sp1ApplyFields a2 rest
    | none => none

def decodeSp1 (v : Json) : Option Sp1Body :=
  match v with
  | .obj fields => sp1ApplyFields ⟨0, "", ""⟩ fields
  | _ => none

/-- Special case #2 of the fallback: a bare object with a string error field. -/
def sp2ApplyFields : String → List (String × Json) → Option String
  | a, [] => some a
  | a, (k, v) :: rest =>
    if goToLower k == "error" then
      match v with
      | .null => sp2ApplyFields a rest
      | .str s => sp2ApplyFields s rest
      | _ => none
    else sp2ApplyFields a rest

def decodeSp2 (v : Json) : Option String :=
  match v with
  | .obj fields => sp2ApplyFields "" fields
  | _ => none

/-- The permissive decode of a present error sub-document (lines 163-199 of
json_rpc.go): first as a map[string]interface{} taking code / message / data
with type assertions (data stringified with fmt %v when not a string), else as
a bare string with the generic server-side code, else everything zero. -/
def decodeErrorField (ev : Json) : ErrJsonRpcExceptionExternal :=
  match ev with
  | .null => NewErrJsonRpcExceptionExternal 0 "" ""
  | .obj fields =>
    let code :=
      match mapLookupLast fields "code" with
      | some (.num lit) => numLitTruncInt lit
      | _ => 0
    let msg :=
      match mapLookupLast fields "message" with
      | some (.str s) => s
      | _ => ""
    let data :=
      match mapLookupLast fields "data" with
      | some (.str s) => s
      | some v => goFmtV v
      | none => ""
    NewErrJsonRpcExceptionExternal code msg data
  | .str s => NewErrJsonRpcExceptionExternal JsonRpcErrorServerSideException s ""
  | _ => NewErrJsonRpcExceptionExternal 0 "" ""

/-- Overall outcome of JsonRpcResponse.UnmarshalJSON: a returned error, a nil
pointer dereference (top-level JSON null), or the decoded response. -/
inductive DecodeResult where
  | err (msg : String)
  | nilPanic
  | ok (r : JsonRpcResponse)

/-- Third step of the fallback for a body with no error, result or id: the
empty body, JSON-looking garbage, and plain text branches (lines 141-159). -/
def unmarshalFallback3 (data : String) (base : JsonRpcResponse) : JsonRpcResponse :=
  if data.length = 0 then
    { base with error := some (NewErrJsonRpcExceptionExternal
        JsonRpcErrorServerSideException "unexpected empty response from upstream endpoint" "") }
  else
    let c0 := data.data.headD ' '
    if c0 == '{' || c0 == '[' then
      { base with error := some (NewErrJsonRpcExceptionExternal
          JsonRpcErrorServerSideException
          ("unexpected response json structure from upstream: " ++ data) "") }
    else
      { base with error := some (NewErrJsonRpcExceptionExternal
          JsonRpcErrorServerSideException data "") }

/-- Second step of the fallback: the bare string error field special case. -/
def unmarshalFallback2 (data : String) (base : JsonRpcResponse) (v : Json) : JsonRpcResponse :=
  match decodeSp2 v with
  | some sp2 =>
    if sp2 ≠ "" then
      { base with error := some (NewErrJsonRpcExceptionExternal
          JsonRpcErrorServerSideException sp2 "") }
    else unmarshalFallback3 data base
  | none => unmarshalFallback3 data base

/-- First step of the fallback: the bare code / message / data special case. -/
def unmarshalFallback (data : String) (base : JsonRpcResponse) (v : Json) : JsonRpcResponse :=
  match decodeSp1 v with
  | some sp1 =>
    if sp1.code ≠ 0 ∨ sp1.message ≠ "" ∨ sp1.data ≠ "" then
      { base with error := some (NewErrJsonRpcExceptionExternal sp1.code sp1.message sp1.data) }
    else unmarshalFallback2 data base v
  | none => unmarshalFallback2 data base v

/-- JsonRpcResponse.UnmarshalJSON (lines 90-203 of json_rpc.go). -/
def UnmarshalJSON (data : String) : DecodeResult :=
  match parseJson data with
  | none => .err "invalid json"
  | some v =>
    match decodeAux v with
    | .fail => .err "cannot unmarshal body into the response envelope"
    | .nilPointer => .nilPanic
    | .ok aux =>
      if aux.errorRaw.isNone && aux.result.isNone && aux.id.isNone then
        .ok (unmarshalFallback data { jsonrpc := aux.jsonrpc } v)
      else
        match aux.errorRaw with
        | some ev =>
          .ok { jsonrpc := aux.jsonrpc, id := aux.id, result := aux.result,
                error := some (decodeErrorField ev) }
        | none =>
          .ok { jsonrpc := aux.jsonrpc, id := aux.id, result := aux.result, error := none }

/-! ## JsonRpcRequest and CacheHash -/

/-- A dynamic Go value as the type switch of hashValue sees it: bool, int,
float64 (carried by its exact value m / 2^e), string, []interface\x7b\x7d,
map[string]interface\x7b\x7d, or anything else (vother, carried by its %+v
rendering, which only feeds the error message). -/
inductive GoValue where
  | vbool (b : Bool)
  | vint (n : Int)
  | vfloat (m : Int) (e : Nat)
  | vstr (s : String)
  | varr (xs : List GoValue)
  | vmap (entries : List (String × GoValue))
  | vother (desc : String)

/-- fmt %f of a float64 whose exact value is m / 2^e: six fractional digits,
correctly rounded (ties to even). NaN, infinities and the sign of negative
zero are not representable in this encoding; no claim touches them. -/
def goFormatFloat (m : Int) (e : Nat) : String :=
  let den : Int := 2 ^ e
  let num := m * 1000000
  let q := num.ediv den
  let r := num.emod den
  let n := if 2 * r < den then q else if den < 2 * r then q + 1
           else if q % 2 = 0 then q else q + 1
  let mag := n.natAbs
  let fps := toString (mag % 1000000)
  (if m < 0 then "-" else "") ++ toString (mag / 1000000) ++ "." ++
    String.mk (List.replicate (6 - fps.length) '0') ++ fps

/-- A successful lookup returns a value of one of the entries. -/
lemma sizeOf_goLookup {l : List (String × GoValue)} {k : String} {v : GoValue}
    (h : l.lookup k = some v) : sizeOf v < sizeOf l := by
  induction l with
  | nil => simp [List.lookup] at h
  | cons a l ih =>
    rw [List.lookup] at h
    cases hk : k == a.1 <;> rw [hk] at h
    · have := ih h
      cases a with | mk k' v' => simp; omega
    · simp at h
      cases h
      cases a with | mk k' v' => simp; omega

mutual

/-- hashValue (lines 244-285 of json_rpc.go), with the hasher modelled by the
byte string written to it: booleans and numbers are written in their fmt
rendering, strings lower-cased, slices element by element, and maps by
iterating the sorted key list and writing each key followed by the hash of
its looked-up value. An unsupported dynamic type is an error. -/
def hashValue : GoValue → Except String String
  | .vbool b => .ok (if b then "true" else "false")
  | .vint n => .ok (toString n)
  | .vfloat m e => .ok (goFormatFloat m e)
  | .vstr s => .ok (goToLower s)
  | .varr xs => hashList xs
  | .vmap entries => hashKeys (sortStrings (entries.map Prod.fst)) entries
  | .vother d => .error ("unsupported type for value during hash: " ++ d)
termination_by v => (sizeOf v, 0)
decreasing_by
  all_goals apply Prod.Lex.left <;> simp <;> omega

/-- Writes for the elements of a slice, in order. -/
def hashList : List GoValue → Except String String
  | [] => .ok ""
  | x :: xs => do
    let h ← hashValue x
    let rest ← hashList xs
    .ok (h ++ rest)
termination_by xs => (sizeOf xs, 0)
decreasing_by
  all_goals apply Prod.Lex.left <;> simp <;> omega

/-- Writes for a map, iterating the given (sorted) key list; the keys come
from the map itself, so the lookup always succeeds, and a miss would hash the
nil interface, hitting the unsupported-type branch. -/
def hashKeys : List String → List (String × GoValue) → Except String String
  | [], _ => .ok ""
  | k :: ks, entries =>
    match hlk : entries.lookup k with
    | some v => do
      let h ← hashValue v
      let rest ← hashKeys ks entries
      .ok (k ++ h ++ rest)
    | none => .error "unsupported type for value during hash: <nil>"
termination_by ks entries => (sizeOf entries, ks.length)
decreasing_by
  · apply Prod.Lex.left; exact sizeOf_goLookup hlk
  · apply Prod.Lex.right; simp

end

/-- The request envelope (JsonRpcRequest). -/
structure JsonRpcRequest where
  jsonrpc : String := ""
  id : Option Json := none
  method : String
  params : List GoValue

/-- JsonRpcRequest.CacheHash on a non-nil request (lines 228-241): hash every
parameter into one SHA-256 stream, digest the digest again, and format as
method:hexdigest. An incremental SHA-256 over the writes equals the SHA-256
of their concatenation. -/
def CacheHash (r : JsonRpcRequest) : Except String String :=
  match hashList r.params with
  | .error e => .error e
  | .ok stream =>
    .ok (r.method ++ ":" ++ hexEncode (sha256 (sha256 (utf8Bytes stream))))

/-- JsonRpcRequest.CacheHash including the nil-receiver guard (lines 223-227):
a nil request yields the empty fingerprint and no error. -/
def CacheHashPtr (r : Option JsonRpcRequest) : Except String String :=
  match r with
  | none => .ok ""
  | some req => CacheHash req

/-! ### Canonical form of a parameter value

canonV lower-cases every string value and rebuilds every map in sorted key
order (with canonicalized values); it changes exactly what hashValue is
insensitive to, and formalizes "differing only in the case of string values
and/or in the insertion order of map entries" as equality of canonical
forms. -/

mutual

def canonV : GoValue → GoValue
  | .vbool b => .vbool b
  | .vint n => .vint n
  | .vfloat m e => .vfloat m e
  | .vstr s => .vstr (goToLower s)
  | .varr xs => .varr (canonList xs)
  | .vmap entries => .vmap (canonKeys (sortStrings (entries.map Prod.fst)) entries)
  | .vother d => .vother d
termination_by v => (sizeOf v, 0)
decreasing_by
  all_goals apply Prod.Lex.left <;> simp <;> omega

def canonList : List GoValue → List GoValue
  | [] => []
  | x :: xs => canonV x :: canonList xs
termination_by xs => (sizeOf xs, 0)
decreasing_by
  all_goals apply Prod.Lex.left <;> simp <;> omega

def canonKeys : List String → List (String × GoValue) → List (String × GoValue)
  | [], _ => []
  | k :: ks, entries =>
    match hlk : entries.lookup k with
    | some v => (k, canonV v) :: canonKeys ks entries
    | none => canonKeys ks entries
termination_by ks entries => (sizeOf entries, ks.length)
decreasing_by
  · apply Prod.Lex.left; exact sizeOf_goLookup hlk
  · apply Prod.Lex.right; simp
  · apply Prod.Lex.right; simp

end

/-! ## TranslateToJsonRpcException

The error taxonomy (HasErrorCode, StandardError, DeepestMessage, the error
code constants and NewErrJsonRpcExceptionInternal) lives outside the excerpt;
it is modelled from the spec: an internal error exposes the set of
classification codes found anywhere in its chain, and, when it implements
StandardError, the deepest diagnostic message of that chain. -/

inductive ErrorCode where
  | jsonRpcExceptionInternal
  | authRateLimitRuleExceeded
  | projectRateLimitRuleExceeded
  | networkRateLimitRuleExceeded
  | upstreamRateLimitRuleExceeded
  | authUnauthorized
  | other (name : String)
  deriving DecidableEq

/-- Modelled from the spec: an internal error value, by the classification
codes present in its chain and its deepest diagnostic message (none when the
error does not implement StandardError). -/
structure GoError where
  codes : List ErrorCode
  deepestMessage : Option String
  deriving DecidableEq

/-- Modelled from the spec: HasErrorCode reports whether any of the given
codes appears in the error's chain. -/
def HasErrorCode (err : GoError) (cs : List ErrorCode) : Bool :=
  err.codes.any fun c => cs.contains c

/-- The JSON-RPC error code families named by the spec (the numeric values
are defined outside the excerpt). -/
inductive JsonRpcErrorNumber where
  | capacityExceeded
  | unauthorized
  | serverSideException
  deriving DecidableEq

/-- Modelled from the spec: NewErrJsonRpcExceptionInternal packages a
normalized JSON-RPC error code, a message and the original cause. -/
structure ErrJsonRpcExceptionInternal where
  normalizedCode : JsonRpcErrorNumber
  message : String
  cause : GoError
  deriving DecidableEq

/-- The outcome of translation: the error passed through unchanged, or a
fresh internal JSON-RPC exception. -/
inductive TranslateResult where
  | unchanged
  | translated (e : ErrJsonRpcExceptionInternal)
  deriving DecidableEq

/-- TranslateToJsonRpcException (lines 289-335 of json_rpc.go). -/
def TranslateToJsonRpcException (err : GoError) : TranslateResult :=
  if HasErrorCode err [.jsonRpcExceptionInternal] then
    .unchanged
  else if HasErrorCode err [.authRateLimitRuleExceeded, .projectRateLimitRuleExceeded,
      .networkRateLimitRuleExceeded, .upstreamRateLimitRuleExceeded] then
    .translated ⟨.capacityExceeded, "rate-limit exceeded", err⟩
  else if HasErrorCode err [.authUnauthorized] then
    .translated ⟨.unauthorized, "unauthorized", err⟩
  else
    .translated ⟨.serverSideException, err.deepestMessage.getD "internal server error", err⟩

/-! ## The DRPC vendor client adapter -/

/-- The static chain registry: numeric chain id to DRPC network slug
(drpcNetworkNames, lines 349-464). -/
def drpcNetworkNames : List (Int × String) :=
  [(1, "ethereum"), (10, "optimism"), (100, "gnosis"), (1001, "klaytn-baobab"),
   (10200, "gnosis-chiado"), (108, "thundercore"), (1088, "metis"),
   (10888, "gameswift-testnet"), (1100, "dymension"), (1101, "polygon-zkevm"),
   (1111, "wemix"), (111188, "real"), (1112, "wemix-testnet"), (1115, "core-testnet"),
   (11155111, "sepolia"), (11155420, "optimism-sepolia"), (1116, "core"),
   (11235, "haqq"), (1135, "lisk"), (122, "fuse"),
   (123420111, "opcelestia-raspberry-testnet"), (1284, "moonbeam"),
   (1285, "moonriver"), (1287, "moonbase-alpha"), (1313161554, "aurora"),
   (1313161555, "aurora-testnet"), (13371, "immutable-zkevm"),
   (13473, "immutable-zkevm-testnet"), (137, "polygon"), (1666600000, "harmony-0"),
   (1666600001, "harmony-1"), (167000, "taiko"), (167009, "taiko-hekla"),
   (168587773, "blast-sepolia"), (169, "manta-pacific"), (17000, "holesky"),
   (1740, "metall2-testnet"), (1750, "metall2"), (18, "thundercore-testnet"),
   (1829, "playnance"), (199, "bittorrent"), (2020, "ronin"),
   (2039, "alephzero-sepolia"), (204, "opbnb"), (2221, "kava-testnet"),
   (2222, "kava"), (2358, "kroma-sepolia"), (2442, "polygon-zkevm-cardona"),
   (245022926, "neon-evm-devnet"), (245022934, "neon-evm"),
   (2494104990, "tron-shasta"), (25, "cronos"), (250, "fantom"), (252, "fraxtal"),
   (2522, "fraxtal-testnet"), (255, "kroma"), (288, "boba-eth"), (30, "rootstock"),
   (300, "zksync-sepolia"), (31, "rootstock-testnet"), (314, "filecoin"),
   (314159, "filecoin-calibration"), (324, "zksync"), (338, "cronos-testnet"),
   (3441006, "manta-pacific-sepolia"), (34443, "mode"), (3456, "goat-testnet"),
   (40, "telos"), (4002, "fantom-testnet"), (41, "telos-testnet"),
   (41455, "alephzero"), (4202, "lisk-sepolia"), (42161, "arbitrum"),
   (421614, "arbitrum-sepolia"), (42170, "arbitrum-nova"), (42220, "celo"),
   (43113, "avalanche-fuji"), (43114, "avalanche"), (44787, "celo-alfajores"),
   (48899, "zircuit-testnet"), (48900, "zircuit-mainnet"), (5000, "mantle"),
   (5003, "mantle-sepolia"), (534351, "scroll-sepolia"), (534352, "scroll"),
   (54211, "haqq-testnet"), (56, "bsc"), (5611, "opbnb-testnet"),
   (56288, "boba-bnb"), (59141, "linea-sepolia"), (59144, "linea"),
   (60808, "bob"), (6398, "everclear-sepolia"), (65, "oktc-testnet"),
   (656476, "open-campus-codex-sepolia"), (66, "oktc"), (7000, "zeta-chain"),
   (7001, "zeta-chain-testnet"), (728126428, "tron"), (7777777, "zora"),
   (80002, "polygon-amoy"), (80084, "bartio"), (808813, "bob-testnet"),
   (81457, "blast"), (8217, "klaytn"), (8453, "base"), (84532, "base-sepolia"),
   (88153591557, "arb-blueberry-testnet"), (9000, "evmos-testnet"),
   (9001, "evmos"), (919, "mode-testnet"), (94204209, "polygon-blackberry-testnet"),
   (97, "bsc-testnet"), (999999999, "zora-sepolia")]

/-- strconv.ParseInt(s, 10, 64): an optional sign followed by at least one
decimal digit, rejecting any other character and any value outside the int64
range. -/
def parseInt64 (s : String) : Except String Int :=
  match s.data with
  | [] => .error "invalid syntax"
  | c :: rest =>
    let (neg, digits) :=
      if c == '+' then (false, rest)
      else if c == '-' then (true, rest)
      else (false, c :: rest)
    if digits.isEmpty || digits.any (fun d => !isDigitChar d) then
      .error "invalid syntax"
    else
      let v : Int := if neg then -(digitsToNat digits : Int) else (digitsToNat digits : Int)
      if v < -(2 ^ 63) || v > 2 ^ 63 - 1 then .error "value out of range"
      else .ok v

/-- DrpcHttpJsonRpcClient.SupportsNetwork (lines 494-506): a network is
supported when the identifier starts with the evm architecture tag and the
rest parses to a chain id present in the registry. The byte slice
networkId[4:] is the character drop of the four ASCII prefix characters. -/
def SupportsNetwork (networkId : String) : Except String Bool :=
  if goHasPrefixOf "evm:" networkId then
    match parseInt64 (networkId.drop 4) with
    | .error e => .error e
    | .ok chainId => .ok (drpcNetworkNames.lookup chainId).isSome
  else
    .ok false

/-- Modelled from the spec: the transport client produced by
NewGenericHttpJsonRpcClient, identified by the endpoint it was built for. -/
structure HttpJsonRpcClient where
  url : String
  deriving DecidableEq

/-- Modelled from the spec: the surface of the common.Network interface used
by the adapter - the logical identifier, the architecture, and the numeric
chain id (or the failure) that EvmChainId returns. -/
structure Network where
  id : String
  architecture : String
  evmChainId : Except String Int

/-- The adapter state: the API key and the per-network client pool. -/
structure DrpcHttpJsonRpcClient where
  apiKey : String
  clients : List (String × HttpJsonRpcClient)

/-- DrpcHttpJsonRpcClient.getOrCreateClient (lines 508-553), as one atomic
resolution step: the locking discipline serializes the map accesses, so a
single call reads the pool, possibly constructs and caches one client, and
returns the new pool alongside the result. The url.Parse of the templated
endpoint cannot fail and NewGenericHttpJsonRpcClient's construction is
modelled from the spec as returning the client for that endpoint. -/
def getOrCreateClient (c : DrpcHttpJsonRpcClient) (network : Network) :
    DrpcHttpJsonRpcClient × Except String HttpJsonRpcClient :=
  match c.clients.lookup network.id with
  | some client => (c, .ok client)
  | none =>
    if network.architecture ≠ "evm" then
      (c, .error ("unsupported network architecture for DRPC client: " ++ network.architecture))
    else
      match network.evmChainId with
      | .error e => (c, .error e)
      | .ok chainId =>
        match drpcNetworkNames.lookup chainId with
        | none => (c, .error ("unsupported network chain ID for DRPC: " ++ toString chainId))
        | some netName =>
          let client : HttpJsonRpcClient :=
            ⟨"https://lb.drpc.org/ogrpc?network=" ++ netName ++ "&dkey=" ++ c.apiKey⟩
          ({ c with clients := (network.id, client) :: c.clients }, .ok client)

/-! ## Supporting lemmas for the claims -/

/-- Every branch of the third fallback step attaches an error and keeps the
result of the base response. -/
lemma unmarshalFallback3_spec (data : String) (base : JsonRpcResponse) :
    (unmarshalFallback3 data base).error.isSome = true ∧
    (unmarshalFallback3 data base).result = base.result := by
  unfold unmarshalFallback3
  split
  · exact ⟨rfl, rfl⟩
  · dsimp only
    split <;> exact ⟨rfl, rfl⟩

/-- Every branch of the second fallback step attaches an error and keeps the
result of the base response. -/
lemma unmarshalFallback2_spec (data : String) (base : JsonRpcResponse) (v : Json) :
    (unmarshalFallback2 data base v).error.isSome = true ∧
    (unmarshalFallback2 data base v).result = base.result := by
  unfold unmarshalFallback2
  split
  · split
    · exact ⟨rfl, rfl⟩
    · exact unmarshalFallback3_spec data base
  · exact unmarshalFallback3_spec data base

/-- Every branch of the fallback attaches an error and keeps the result of
the base response. -/
lemma unmarshalFallback_spec (data : String) (base : JsonRpcResponse) (v : Json) :
    (unmarshalFallback data base v).error.isSome = true ∧
    (unmarshalFallback data base v).result = base.result := by
  unfold unmarshalFallback
  split
  · split
    · exact ⟨rfl, rfl⟩
    · exact unmarshalFallback2_spec data base v
  · exact unmarshalFallback2_spec data base v

/-! ## The claims -/

/-- C1 (counterexample): decoding does fail outright on the empty byte
string, which is not valid JSON, so sonic.Unmarshal - and with it
UnmarshalJSON - returns an error; and decoding the valid body with only an
id yields a response with neither result nor error set, against the
exactly-one-of part of the claim. -/
theorem claim_C1_counterexample :
    UnmarshalJSON "" = .err "invalid json" ∧
    UnmarshalJSON "\x7b\"id\":1\x7d" = .ok ⟨"", some (.num "1"), none, none⟩ :=
  ⟨rfl, rfl⟩

/-- C1 (amended): decoding fails exactly when the typed envelope decode of
the body fails (in particular on every byte string that is not valid JSON,
the empty string included); when it succeeds and the body carries none of
result, error and id, the decoder always synthesizes an error, giving
exactly one of result and error; bodies that do decode but carry an id only,
or both result and error, escape the exactly-one-of discipline. -/
theorem claim_C1 (data : String) :
    (parseJson data = none → UnmarshalJSON data = .err "invalid json") ∧
    (∀ v aux, parseJson data = some v → decodeAux v = .ok aux →
      aux.errorRaw = none → aux.result = none → aux.id = none →
      ∃ r, UnmarshalJSON data = .ok r ∧ r.error.isSome = true ∧ r.result = none) := by
  constructor
  · intro h
    unfold UnmarshalJSON
    rw [h]
  · intro v aux hp hd he hr hi
    simp only [UnmarshalJSON, hp, hd, he, hr, hi, Option.isNone_none, Bool.and_self, if_true]
    exact ⟨_, rfl, (unmarshalFallback_spec data _ v).1, (unmarshalFallback_spec data _ v).2⟩

/-- C1 (witness): the amended claim at the concrete inputs "oops" (not valid
JSON, decode errors) and a body carrying only a jsonrpc tag (valid, empty
envelope, synthesized error). -/
theorem claim_C1_witness :
    UnmarshalJSON "oops" = .err "invalid json" ∧
    ∃ r, UnmarshalJSON "\x7b\"jsonrpc\":\"2.0\"\x7d" = .ok r ∧
      r.error.isSome = true ∧ r.result = none :=
  ⟨(claim_C1 "oops").1 rfl,
   (claim_C1 "\x7b\"jsonrpc\":\"2.0\"\x7d").2 (.obj [("jsonrpc", .str "2.0")])
     ⟨"2.0", none, none, none⟩ rfl rfl rfl rfl rfl⟩

/-- C2 (counterexample): decoding the empty object produces the
json-structure error message quoting the body, not the claimed
empty-response message (the empty-body branch tests the byte length of the
input, and a two-byte input misses it). -/
theorem claim_C2_counterexample :
    UnmarshalJSON "\x7b\x7d" = .ok ⟨"", none, none,
      some ⟨JsonRpcErrorServerSideException,
        "unexpected response json structure from upstream: \x7b\x7d", ""⟩⟩ ∧
    ("unexpected response json structure from upstream: \x7b\x7d" ≠
      "unexpected empty response from upstream endpoint") :=
  ⟨rfl, by decide⟩

/-- C2 (amended): decoding the empty object (no result, no error, no id)
produces a response whose only content is a synthesized error with the
generic server-side code and the message "unexpected response json structure
from upstream: \x7b\x7d"; the "unexpected empty response from upstream
endpoint" message is reserved for a zero-length body, which the earlier
unmarshal step rejects before that branch can fire. -/
theorem claim_C2 :
    UnmarshalJSON "\x7b\x7d" = .ok ⟨"", none, none,
      some ⟨JsonRpcErrorServerSideException,
        "unexpected response json structure from upstream: \x7b\x7d", ""⟩⟩ :=
  rfl

/-- C5: whenever every parameter hashes successfully into the accumulated
write stream s, CacheHash returns method:hexdigest with the hex digest the
SHA-256 of the SHA-256 of the stream bytes. -/
theorem claim_C5 (r : JsonRpcRequest) (s : String)
    (h : hashList r.params = .ok s) :
    CacheHash r = .ok (r.method ++ ":" ++ hexEncode (sha256 (sha256 (utf8Bytes s)))) := by
  unfold CacheHash
  rw [h]

/-- C5 (witness): the format at a concrete request whose parameter stream is
60 bytes long, so the first SHA-256 runs over two blocks and crosses the
56-byte padding boundary; the digest spelled out is the double SHA-256 of
the lower-cased stream, cross-checked against an independent SHA-256
implementation. -/
theorem claim_C5_witness :
    CacheHash ⟨"", none, "eth_getLogs",
      [.vstr "ABCDEFGHIJKLMNOPQRSTUVWXYZ0123456789abcdefghijklmnopqrstuvwx"]⟩ =
      .ok "eth_getLogs:e555ac0a38d9ecfce7324533f9faa2f7c7ecc28961bb702304315d0aafefd5af" :=
  (claim_C5 ⟨"", none, "eth_getLogs",
      [.vstr "ABCDEFGHIJKLMNOPQRSTUVWXYZ0123456789abcdefghijklmnopqrstuvwx"]⟩
    "abcdefghijklmnopqrstuvwxyz0123456789abcdefghijklmnopqrstuvwx"
    (by simp only [hashList, hashValue]; rfl)).trans (by decide)

/-- C4 (counterexample): the parameter stream is not injectively encoded:
the single parameter "ab" and the parameter pair "a", "b" write the same
bytes, so two requests with the same method and semantically distinct
parameter lists collide with certainty, not merely with negligible
probability. -/
theorem claim_C4_counterexample :
    CacheHash ⟨"", none, "eth_call", [.vstr "ab"]⟩ =
      CacheHash ⟨"", none, "eth_call", [.vstr "a", .vstr "b"]⟩ ∧
    ([GoValue.vstr "ab"] : List GoValue) ≠ [.vstr "a", .vstr "b"] := by
  constructor
  · have h1 : hashList [GoValue.vstr "ab"] = .ok "ab" := by
      simp only [hashList, hashValue]; rfl
    have h2 : hashList [GoValue.vstr "a", .vstr "b"] = .ok "ab" := by
      simp only [hashList, hashValue]; rfl
    unfold CacheHash
    rw [h1, h2]
  · intro h
    simp at h

/-- C6: the translation policy, first match wins: an error already
classified as an internal JSON-RPC exception passes through unchanged; any
of the four rate-limit classifications maps to the capacity-exceeded code
with message "rate-limit exceeded"; an unauthorized classification maps to
the unauthorized code with message "unauthorized"; everything else maps to
the generic server-side code with the deepest diagnostic message when the
error exposes one, else "internal server error". The function is total by
construction. -/
theorem claim_C6 (err : GoError) :
    (HasErrorCode err [.jsonRpcExceptionInternal] = true →
      TranslateToJsonRpcException err = .unchanged) ∧
    (HasErrorCode err [.jsonRpcExceptionInternal] = false →
      HasErrorCode err [.authRateLimitRuleExceeded, .projectRateLimitRuleExceeded,
        .networkRateLimitRuleExceeded, .upstreamRateLimitRuleExceeded] = true →
      TranslateToJsonRpcException err =
        .translated ⟨.capacityExceeded, "rate-limit exceeded", err⟩) ∧
    (HasErrorCode err [.jsonRpcExceptionInternal] = false →
      HasErrorCode err [.authRateLimitRuleExceeded, .projectRateLimitRuleExceeded,
        .networkRateLimitRuleExceeded, .upstreamRateLimitRuleExceeded] = false →
      HasErrorCode err [.authUnauthorized] = true →
      TranslateToJsonRpcException err =
        .translated ⟨.unauthorized, "unauthorized", err⟩) ∧
    (HasErrorCode err [.jsonRpcExceptionInternal] = false →
      HasErrorCode err [.authRateLimitRuleExceeded, .projectRateLimitRuleExceeded,
        .networkRateLimitRuleExceeded, .upstreamRateLimitRuleExceeded] = false →
      HasErrorCode err [.authUnauthorized] = false →
      TranslateToJsonRpcException err =
        .translated ⟨.serverSideException,
          err.deepestMessage.getD "internal server error", err⟩) := by
  refine ⟨fun h1 => ?_, fun h1 h2 => ?_, fun h1 h2 h3 => ?_, fun h1 h2 h3 => ?_⟩ <;>
    simp [TranslateToJsonRpcException, *]

/-- C6 (witness): the four branches at concrete errors. -/
theorem claim_C6_witness :
    TranslateToJsonRpcException ⟨[.jsonRpcExceptionInternal], none⟩ = .unchanged ∧
    TranslateToJsonRpcException ⟨[.networkRateLimitRuleExceeded], none⟩ =
      .translated ⟨.capacityExceeded, "rate-limit exceeded",
        ⟨[.networkRateLimitRuleExceeded], none⟩⟩ ∧
    TranslateToJsonRpcException ⟨[.authUnauthorized], none⟩ =
      .translated ⟨.unauthorized, "unauthorized", ⟨[.authUnauthorized], none⟩⟩ ∧
    TranslateToJsonRpcException ⟨[.other "db"], some "connection refused"⟩ =
      .translated ⟨.serverSideException, "connection refused",
        ⟨[.other "db"], some "connection refused"⟩⟩ :=
  ⟨(claim_C6 _).1 (by decide),
   (claim_C6 _).2.1 (by decide) (by decide),
   (claim_C6 _).2.2.1 (by decide) (by decide) (by decide),
   (claim_C6 _).2.2.2 (by decide) (by decide) (by decide)⟩

/-- C7: SupportsNetwork returns true exactly for identifiers with the evm
architecture prefix whose remainder parses as an int64 chain id present in
the static registry; an identifier without the prefix yields false with no
error, and one whose suffix does not parse yields false together with the
parse error. -/
theorem claim_C7 (networkId : String) :
    (goHasPrefixOf "evm:" networkId = false → SupportsNetwork networkId = .ok false) ∧
    (∀ e, goHasPrefixOf "evm:" networkId = true →
      parseInt64 (networkId.drop 4) = .error e →
      SupportsNetwork networkId = .error e) ∧
    (∀ n, goHasPrefixOf "evm:" networkId = true →
      parseInt64 (networkId.drop 4) = .ok n →
      SupportsNetwork networkId = .ok (drpcNetworkNames.lookup n).isSome) := by
  refine ⟨fun h => ?_, fun e h he => ?_, fun n h hn => ?_⟩ <;>
    simp [SupportsNetwork, h]
  · rw [he]
  · rw [hn]

/-- C7 (witness): the three behaviours at concrete identifiers; chain id 1
is registered, so evm:1 is supported. -/
theorem claim_C7_witness :
    SupportsNetwork "evm:1" = .ok true ∧
    SupportsNetwork "solana:101" = .ok false ∧
    SupportsNetwork "evm:12x" = .error "invalid syntax" := by
  refine ⟨?_, ?_, ?_⟩
  · have := (claim_C7 "evm:1").2.2 1 (by decide) rfl
    rw [this]; rfl
  · exact (claim_C7 "solana:101").1 (by decide)
  · exact (claim_C7 "evm:12x").2.1 "invalid syntax" (by decide) rfl

/-- C8: resolving a network whose chain id is missing from the registry
fails with the unsupported-chain error and constructs and caches nothing:
the returned pool state is exactly the input state. -/
theorem claim_C8 (c : DrpcHttpJsonRpcClient) (network : Network) (chainId : Int)
    (hcold : c.clients.lookup network.id = none)
    (harch : network.architecture = "evm")
    (hcid : network.evmChainId = .ok chainId)
    (hreg : drpcNetworkNames.lookup chainId = none) :
    getOrCreateClient c network =
      (c, .error ("unsupported network chain ID for DRPC: " ++ toString chainId)) := by
  simp only [getOrCreateClient, hcold, hcid, harch, ne_eq, not_true_eq_false, if_false, hreg]

/-- C8 (witness): a cold adapter asked for evm chain 999, which is not in
the registry. -/
theorem claim_C8_witness :
    getOrCreateClient ⟨"KEY", []⟩ ⟨"evm:999", "evm", .ok 999⟩ =
      (⟨"KEY", []⟩, .error ("unsupported network chain ID for DRPC: " ++ toString (999 : Int))) :=
  claim_C8 ⟨"KEY", []⟩ ⟨"evm:999", "evm", .ok 999⟩ 999 rfl rfl rfl (by decide)

/-! ### Digest-length lemmas for C4 -/

lemma beBytes_length (k : Nat) : ∀ n, (beBytes k n).length = k := by
  induction k with
  | zero => intro n; rfl
  | succ k ih => intro n; simp [beBytes, ih]

lemma compressStep_length (st : List Nat) (kw : Nat × Nat) :
    (compressStep st kw).length = st.length := by
  unfold compressStep
  split <;> simp

lemma foldl_compressStep_length (l : List (Nat × Nat)) :
    ∀ h : List Nat, (l.foldl compressStep h).length = h.length := by
  induction l with
  | nil => intro h; rfl
  | cons x l ih => intro h; rw [List.foldl_cons, ih, compressStep_length]

lemma processBlock_length (h b : List Nat) : (processBlock h b).length = h.length := by
  unfold processBlock
  rw [List.length_map, List.length_zip, foldl_compressStep_length, Nat.min_self]

lemma foldl_processBlock_length (blocks : List (List Nat)) :
    ∀ h : List Nat, (blocks.foldl processBlock h).length = h.length := by
  induction blocks with
  | nil => intro h; rfl
  | cons b blocks ih => intro h; rw [List.foldl_cons, ih, processBlock_length]

lemma foldr_beBytes_length (l : List Nat) :
    (l.foldr (fun wrd acc => beBytes 4 wrd ++ acc) []).length = 4 * l.length := by
  induction l with
  | nil => rfl
  | cons x l ih => simp [List.foldr_cons, ih, beBytes_length]; omega

/-- A SHA-256 digest is 32 bytes. -/
lemma sha256_length (msg : List Nat) : (sha256 msg).length = 32 := by
  unfold sha256
  rw [foldr_beBytes_length, foldl_processBlock_length]
  rfl

lemma hexFoldr_length (l : List Nat) :
    (l.foldr (fun b acc => hexDigit (b / 16) :: hexDigit (b % 16) :: acc) []).length =
      2 * l.length := by
  induction l with
  | nil => rfl
  | cons x l ih => simp [List.foldr_cons, ih]; omega

/-- Hex-encoding a byte list yields two characters per byte. -/
lemma hexEncode_length (l : List Nat) : (hexEncode l).length = 2 * l.length := by
  unfold hexEncode
  show (l.foldr (fun b acc => hexDigit (b / 16) :: hexDigit (b % 16) :: acc) []).length =
    2 * l.length
  exact hexFoldr_length l

/-- Data and length of a string append, at the definitional level. -/
lemma string_data_append (s t : String) : (s ++ t).data = s.data ++ t.data := by
  cases s; cases t; rfl

/-- A successful CacheHash factors into the method, a colon, and a 64-character
hex digest. -/
lemma cacheHash_shape (r : JsonRpcRequest) (s : String) (h : CacheHash r = .ok s) :
    ∃ d : String, s = r.method ++ ":" ++ d ∧ d.length = 64 := by
  unfold CacheHash at h
  cases hl : hashList r.params with
  | error e =>
    rw [hl] at h
    exact absurd h (by simp)
  | ok stream =>
    rw [hl] at h
    refine ⟨hexEncode (sha256 (sha256 (utf8Bytes stream))), ?_, ?_⟩
    · injection h with h
      exact h.symm
    · rw [hexEncode_length, sha256_length]

/-- C4 (amended): the method is reproduced in clear in front of the digest,
so two successfully hashed requests with different methods always receive
different fingerprints; parameter differences, however, are only hashed, and
distinct parameter lists can collide with certainty (see the
counterexample), so the claim's parameter-sensitivity part does not hold as
stated. -/
theorem claim_C4 (r1 r2 : JsonRpcRequest) (s1 s2 : String)
    (h1 : CacheHash r1 = .ok s1) (h2 : CacheHash r2 = .ok s2)
    (hm : r1.method ≠ r2.method) : s1 ≠ s2 := by
  obtain ⟨d1, hs1, hd1⟩ := cacheHash_shape r1 s1 h1
  obtain ⟨d2, hs2, hd2⟩ := cacheHash_shape r2 s2 h2
  intro hs
  apply hm
  rw [hs1, hs2] at hs
  have hdata := congrArg String.data hs
  rw [string_data_append, string_data_append, string_data_append, string_data_append,
    List.append_assoc, List.append_assoc] at hdata
  have hlen : (":".data ++ d1.data).length = (":".data ++ d2.data).length := by
    have e1 : d1.data.length = 64 := hd1
    have e2 : d2.data.length = 64 := hd2
    simp [List.length_append, e1, e2]
  have hm2 := (List.append_inj' hdata hlen).1
  cases hr1 : r1.method with
  | mk l1 =>
    cases hr2 : r2.method with
    | mk l2 =>
      rw [hr1, hr2] at hm2
      exact congrArg String.mk hm2

/-- C4 (witness): two empty-parameter requests with different methods; both
digests are the double SHA-256 of the empty stream, and the fingerprints
still differ. -/
theorem claim_C4_witness :
    ("m1:5df6e0e2761359d30a8275058e299fcc0381534545f55cf43e41983f5d4c9456" : String) ≠
      "m2:5df6e0e2761359d30a8275058e299fcc0381534545f55cf43e41983f5d4c9456" :=
  claim_C4 ⟨"", none, "m1", []⟩ ⟨"", none, "m2", []⟩ _ _
    (by simp only [CacheHash, hashList]; decide)
    (by simp only [CacheHash, hashList]; decide)
    (by decide)

/-! ### Canonicalization lemmas for C3 -/

/-- Lower-casing a character is idempotent. -/
lemma charToLower_idem (c : Char) : c.toLower.toLower = c.toLower := by
  unfold Char.toLower
  by_cases h : c.toNat ≥ 65 ∧ c.toNat ≤ 90
  · rw [if_pos h]
    have hv : Nat.isValidChar (c.toNat + 32) := Or.inl (by omega)
    have ht : (Char.ofNat (c.toNat + 32)).toNat = c.toNat + 32 := by
      rw [Char.ofNat, dif_pos hv]
      rfl
    rw [if_neg (by rw [ht]; omega)]
  · rw [if_neg h, if_neg h]

lemma map_toLower_idem (l : List Char) :
    (l.map Char.toLower).map Char.toLower = l.map Char.toLower := by
  induction l with
  | nil => rfl
  | cons c l ih => simp only [List.map_cons, charToLower_idem, ih]

/-- Lower-casing a string is idempotent. -/
lemma goToLower_idem (s : String) : goToLower (goToLower s) = goToLower s := by
  unfold goToLower
  exact congrArg String.mk (map_toLower_idem s.data)

/-- Unfolding List.lookup over a cons cell, in if form. -/
lemma lookup_cons_str {beta : Type} (k k' : String) (v : beta) (l : List (String × beta)) :
    List.lookup k ((k', v) :: l) = if k == k' then some v else List.lookup k l := by
  cases h : (k == k') <;> simp [List.lookup, h]

/-- Unfolding canonKeys over an empty key list. -/
lemma canonKeys_nil (entries : List (String × GoValue)) : canonKeys [] entries = [] := by
  simp only [canonKeys]

/-- Unfolding canonKeys over a cons key list, as a plain match. -/
lemma canonKeys_cons (k : String) (ks : List String) (entries : List (String × GoValue)) :
    canonKeys (k :: ks) entries =
      match entries.lookup k with
      | some v => (k, canonV v) :: canonKeys ks entries
      | none => canonKeys ks entries := by
  simp only [canonKeys]
  split
  · rename_i v heq
    rw [heq]
  · rename_i heq
    rw [heq]

/-- Unfolding hashKeys over an empty key list. -/
lemma hashKeys_nil (entries : List (String × GoValue)) : hashKeys [] entries = .ok "" := by
  simp only [hashKeys]

/-- Unfolding hashKeys over a cons key list, as a plain match. -/
lemma hashKeys_cons (k : String) (ks : List String) (entries : List (String × GoValue)) :
    hashKeys (k :: ks) entries =
      match entries.lookup k with
      | some v => do
        let h ← hashValue v
        let rest ← hashKeys ks entries
        .ok (k ++ h ++ rest)
      | none => .error "unsupported type for value during hash: <nil>" := by
  simp only [hashKeys]
  split
  · rename_i v heq
    rw [heq]
  · rename_i heq
    rw [heq]

/-- A key drawn from a map's key list always looks up successfully. -/
lemma lookup_isSome_of_mem_keys {l : List (String × GoValue)} {k : String}
    (h : k ∈ l.map Prod.fst) : ∃ v, l.lookup k = some v := by
  induction l with
  | nil => simp at h
  | cons a l ih =>
    obtain ⟨k', v'⟩ := a
    rw [lookup_cons_str]
    by_cases hk : (k == k') = true
    · rw [if_pos hk]
      exact ⟨v', rfl⟩
    · rw [if_neg hk]
      rw [List.map_cons, List.mem_cons] at h
      rcases h with h | h
      · simp at h
        rw [h] at hk
        simp at hk
      · exact ih h

/-- A key absent from the map stays absent from its canonicalized image. -/
lemma lookup_canonKeys_of_none {entries : List (String × GoValue)} {k : String}
    (h : entries.lookup k = none) :
    ∀ S : List String, (canonKeys S entries).lookup k = none := by
  intro S
  induction S with
  | nil => rw [canonKeys_nil]; rfl
  | cons k' S ih =>
    rw [canonKeys_cons]
    cases hk' : entries.lookup k' with
    | none => exact ih
    | some v =>
      show List.lookup k ((k', canonV v) :: canonKeys S entries) = none
      rw [lookup_cons_str]
      cases hkk : (k == k') with
      | true =>
        have : k = k' := by simpa using hkk
        rw [this] at h
        rw [h] at hk'
        cases hk'
      | false =>
        rw [if_neg (by simp [hkk])]
        exact ih

/-- Looking a key of the iteration list up in the canonicalized map gives the
canonical image of the original value. -/
lemma lookup_canonKeys {entries : List (String × GoValue)} {k : String}
    {S : List String} (hk : k ∈ S) :
    (canonKeys S entries).lookup k = (entries.lookup k).map canonV := by
  induction S with
  | nil => cases hk
  | cons k' S ih =>
    rw [canonKeys_cons]
    cases hkk : (k == k') with
    | true =>
      have hke : k = k' := by simpa using hkk
      cases hk' : entries.lookup k' with
      | some v =>
        show List.lookup k ((k', canonV v) :: canonKeys S entries) =
          (entries.lookup k).map canonV
        rw [lookup_cons_str, if_pos hkk, hke, hk']
        rfl
      | none =>
        rw [hke, hk']
        exact hke ▸ lookup_canonKeys_of_none (hke ▸ hk') S
    | false =>
      have hkS : k ∈ S := by
        rcases List.mem_cons.1 hk with h | h
        · rw [h] at hkk
          simp at hkk
        · exact h
      cases hk' : entries.lookup k' with
      | some v =>
        show List.lookup k ((k', canonV v) :: canonKeys S entries) =
          (entries.lookup k).map canonV
        rw [lookup_cons_str, if_neg (by simp [hkk])]
        exact ih hkS
      | none => exact ih hkS

/-- When every iterated key is present in the map, canonicalization preserves
the key list. -/
lemma canonKeys_keys {entries : List (String × GoValue)} :
    ∀ S : List String, (∀ k ∈ S, ∃ v, entries.lookup k = some v) →
      (canonKeys S entries).map Prod.fst = S := by
  intro S
  induction S with
  | nil => intro _; rw [canonKeys_nil]; rfl
  | cons k S ih =>
    intro h
    obtain ⟨v, hv⟩ := h k (List.mem_cons_self k S)
    rw [canonKeys_cons, hv]
    show (k, canonV v).1 :: (canonKeys S entries).map Prod.fst = k :: S
    rw [ih fun k' hk' => h k' (List.mem_cons_of_mem _ hk')]

/-- Sorting an already sorted key list changes nothing. -/
lemma sortStrings_idem (l : List String) : sortStrings (sortStrings l) = sortStrings l :=
  List.Sorted.insertionSort_eq (List.sorted_insertionSort _ l)

lemma mem_sortStrings {k : String} {l : List String} : k ∈ sortStrings l ↔ k ∈ l :=
  List.mem_insertionSort _

/-- The central factoring: hashing is invariant under canonV, i.e. under
lower-casing string values and rebuilding maps in sorted key order
(propagated through slices and maps). Proved for all three mutual recursions
at once, by strong induction on size. -/
lemma hash_canon_all : ∀ n : Nat,
    (∀ v : GoValue, sizeOf v ≤ n → hashValue (canonV v) = hashValue v) ∧
    (∀ xs : List GoValue, sizeOf xs ≤ n → hashList (canonList xs) = hashList xs) ∧
    (∀ entries : List (String × GoValue), sizeOf entries ≤ n →
      ∀ S ks : List String, (∀ k ∈ ks, k ∈ S) →
        hashKeys ks (canonKeys S entries) = hashKeys ks entries) := by
  intro n
  induction n using Nat.strong_induction_on with
  | _ n IH =>
    refine ⟨?_, ?_, ?_⟩
    · intro v hv
      cases v with
      | vbool b => simp only [canonV]
      | vint m => simp only [canonV]
      | vfloat m e => simp only [canonV]
      | vstr s =>
        simp only [canonV, hashValue]
        rw [goToLower_idem]
      | varr xs =>
        have hlt : sizeOf xs < n := by
          have hs : sizeOf (GoValue.varr xs) = 1 + sizeOf xs := by simp
          omega
        simp only [canonV, hashValue]
        exact (IH (sizeOf xs) hlt).2.1 xs (le_refl _)
      | vmap entries =>
        have hlt : sizeOf entries < n := by
          have hs : sizeOf (GoValue.vmap entries) = 1 + sizeOf entries := by simp
          omega
        simp only [canonV, hashValue]
        have hmem : ∀ k ∈ sortStrings (entries.map Prod.fst), ∃ v, entries.lookup k = some v :=
          fun k hk => lookup_isSome_of_mem_keys (mem_sortStrings.1 hk)
        rw [canonKeys_keys _ hmem, sortStrings_idem]
        exact (IH (sizeOf entries) hlt).2.2 entries (le_refl _) _ _ (fun k hk => hk)
      | vother d => simp only [canonV]
    · intro xs hxs
      cases xs with
      | nil => simp only [canonList]
      | cons x xs' =>
        have hsz : sizeOf (x :: xs') = 1 + sizeOf x + sizeOf xs' := by simp
        have h1 : sizeOf x < n := by omega
        have h2 : sizeOf xs' < n := by omega
        simp only [canonList, hashList]
        rw [(IH (sizeOf x) h1).1 x (le_refl _),
          (IH (sizeOf xs') h2).2.1 xs' (le_refl _)]
    · intro entries hent S ks hks
      induction ks with
      | nil => rw [hashKeys_nil, hashKeys_nil]
      | cons k ks' ihk =>
        have hkS : k ∈ S := hks k (List.mem_cons_self k ks')
        have htail : ∀ k' ∈ ks', k' ∈ S := fun k' h => hks k' (List.mem_cons_of_mem _ h)
        rw [hashKeys_cons, hashKeys_cons, lookup_canonKeys hkS]
        cases hkv : entries.lookup k with
        | none => rfl
        | some v =>
          have hlt : sizeOf v < n := by
            have := sizeOf_goLookup hkv
            omega
          simp only [Option.map_some']
          rw [(IH (sizeOf v) hlt).1 v (le_refl _), ihk htail]

/-- C3: requests with the same method whose parameter lists agree up to the
case of string values and the insertion order of string-keyed map entries -
formalized as equality of canonical forms, where canonV lower-cases strings
and rebuilds maps in sorted key order - receive the same fingerprint. -/
theorem claim_C3 (r1 r2 : JsonRpcRequest) (hm : r1.method = r2.method)
    (hp : canonList r1.params = canonList r2.params) :
    CacheHash r1 = CacheHash r2 := by
  have h1 := (hash_canon_all (sizeOf r1.params)).2.1 r1.params (le_refl _)
  have h2 := (hash_canon_all (sizeOf r2.params)).2.1 r2.params (le_refl _)
  have hstream : hashList r1.params = hashList r2.params := by
    rw [← h1, ← h2, hp]
  unfold CacheHash
  rw [hstream, hm]

/-- C3 (witness): two concrete eth_getBalance requests differing in string
case and in map entry order hash identically. -/
theorem claim_C3_witness :
    CacheHash ⟨"", none, "eth_getBalance",
      [.vstr "0xABC", .vstr "LATEST", .vmap [("a", .vint 1), ("b", .vbool true)]]⟩ =
    CacheHash ⟨"", none, "eth_getBalance",
      [.vstr "0xabc", .vstr "latest", .vmap [("b", .vbool true), ("a", .vint 1)]]⟩ :=
  claim_C3 _ _ rfl (by
    simp +decide [canonList, canonV, canonKeys, sortStrings, goToLower,
      List.insertionSort, List.orderedInsert, List.lookup])

/-! ### A transition system for concurrent getOrCreateClient (C9)

Modelled from the spec's concurrency section: N threads race through the
double-checked locking discipline of getOrCreateClient for one and the same
logical network against a cold adapter. sync.RWMutex is modelled by a writer
flag: the read phase (RLock, map read, RUnlock, branch) collapses to one
atomic step that can only run while no writer holds the lock, which is
exactly the exclusion the RWMutex provides, and each write-side action
(acquire, re-check, construct-and-insert, release) is a separate step, so
the re-check races are all present. Client instances are told apart by their
construction index (pointer identity in Go); the architecture, chain id and
registry checks all pass in this scenario and are part of the construction
step. Nothing forces the construction step itself to see an empty map: that
the second check makes a double construction unreachable is exactly what the
invariant proves. -/

inductive ResolutionPc where
  | start
  | wantWrite
  | recheck
  | construct
  | unlockDone
  | done
  deriving DecidableEq

structure ResolutionThread where
  pc : ResolutionPc
  ret : Option Nat
  deriving DecidableEq

structure ResolutionState where
  writer : Bool
  map : Option Nat
  ctr : Nat
  threads : List ResolutionThread
  deriving DecidableEq

/-- The adapter before any call: no writer, empty pool, nothing constructed,
every thread at the optimistic read. -/
def initPool (n : Nat) : ResolutionState :=
  ⟨false, none, 0, List.replicate n ⟨.start, none⟩⟩

/-- One interleaved step of one thread. -/
inductive ResolutionStep : ResolutionState → ResolutionState → Prop where
  | readHit (mp ctr c) (l1 l2 : List ResolutionThread) (t : ResolutionThread)
      (hpc : t.pc = .start) (hm : mp = some c) :
      ResolutionStep ⟨false, mp, ctr, l1 ++ t :: l2⟩
        ⟨false, mp, ctr, l1 ++ { t with pc := .done, ret := some c } :: l2⟩
  | readMiss (mp ctr) (l1 l2 : List ResolutionThread) (t : ResolutionThread)
      (hpc : t.pc = .start) (hm : mp = none) :
      ResolutionStep ⟨false, mp, ctr, l1 ++ t :: l2⟩
        ⟨false, mp, ctr, l1 ++ { t with pc := .wantWrite } :: l2⟩
  | wacquire (mp ctr) (l1 l2 : List ResolutionThread) (t : ResolutionThread)
      (hpc : t.pc = .wantWrite) :
      ResolutionStep ⟨false, mp, ctr, l1 ++ t :: l2⟩
        ⟨true, mp, ctr, l1 ++ { t with pc := .recheck } :: l2⟩
  | recheckHit (wr mp ctr c) (l1 l2 : List ResolutionThread) (t : ResolutionThread)
      (hpc : t.pc = .recheck) (hm : mp = some c) :
      ResolutionStep ⟨wr, mp, ctr, l1 ++ t :: l2⟩
        ⟨wr, mp, ctr, l1 ++ { t with pc := .unlockDone, ret := some c } :: l2⟩
  | recheckMiss (wr mp ctr) (l1 l2 : List ResolutionThread) (t : ResolutionThread)
      (hpc : t.pc = .recheck) (hm : mp = none) :
      ResolutionStep ⟨wr, mp, ctr, l1 ++ t :: l2⟩
        ⟨wr, mp, ctr, l1 ++ { t with pc := .construct } :: l2⟩
  | constructStep (wr mp ctr) (l1 l2 : List ResolutionThread) (t : ResolutionThread)
      (hpc : t.pc = .construct) :
      ResolutionStep ⟨wr, mp, ctr, l1 ++ t :: l2⟩
        ⟨wr, some ctr, ctr + 1, l1 ++ { t with pc := .unlockDone, ret := some ctr } :: l2⟩
  | wrelease (wr mp ctr) (l1 l2 : List ResolutionThread) (t : ResolutionThread)
      (hpc : t.pc = .unlockDone) :
      ResolutionStep ⟨wr, mp, ctr, l1 ++ t :: l2⟩
        ⟨false, mp, ctr, l1 ++ { t with pc := .done } :: l2⟩

/-- Whether a thread holds the write lock (is inside the critical section). -/
def wcs (t : ResolutionThread) : Bool :=
  match t.pc with
  | .recheck => true
  | .construct => true
  | .unlockDone => true
  | _ => false

def countWcs (l : List ResolutionThread) : Nat := (l.filter wcs).length

lemma countWcs_decomp (l1 l2 : List ResolutionThread) (t : ResolutionThread) :
    countWcs (l1 ++ t :: l2) = countWcs l1 + countWcs l2 + (if wcs t then 1 else 0) := by
  simp only [countWcs, List.filter_append, List.filter_cons, List.length_append]
  split <;> simp <;> omega

/-- The inductive invariant: the pool and construction counter agree (at most
one client, with index 0, ever exists); the writer flag counts the threads in
the critical section; a returned or observed instance is always the cached
client 0; a thread about to construct is inside an empty-pool critical
section; a finished thread carries a return value. -/
structure ResolutionInv (s : ResolutionState) : Prop where
  hctr : (s.ctr = 0 ∧ s.map = none) ∨ (s.ctr = 1 ∧ s.map = some 0)
  hwcs : countWcs s.threads = if s.writer then 1 else 0
  hret : ∀ t ∈ s.threads, ∀ c, t.ret = some c → c = 0 ∧ s.map = some 0
  hcons : ∀ t ∈ s.threads, t.pc = .construct → s.map = none
  hdone : ∀ t ∈ s.threads, t.pc = .done ∨ t.pc = .unlockDone → t.ret.isSome = true

lemma countWcs_replicate (n : Nat) : countWcs (List.replicate n ⟨.start, none⟩) = 0 := by
  induction n with
  | zero => rfl
  | succ n ih => simpa [countWcs, List.replicate_succ, List.filter_cons, wcs] using ih

lemma resolutionInv_init (n : Nat) : ResolutionInv (initPool n) := by
  refine ⟨Or.inl ⟨rfl, rfl⟩, ?_, ?_, ?_, ?_⟩
  · simpa [initPool] using countWcs_replicate n
  · intro t ht c hc
    have := List.eq_of_mem_replicate ht
    rw [this] at hc
    cases hc
  · intro t ht hpc
    have := List.eq_of_mem_replicate ht
    rw [this] at hpc
    cases hpc
  · intro t ht hpc
    have := List.eq_of_mem_replicate ht
    rw [this] at hpc
    rcases hpc with h | h <;> cases h

lemma mem_decomp {u : ResolutionThread} {l1 l2 : List ResolutionThread}
    {t : ResolutionThread} (h : u ∈ l1 ++ t :: l2) : u ∈ l1 ∨ u = t ∨ u ∈ l2 := by
  rcases List.mem_append.1 h with h | h
  · exact Or.inl h
  · rcases List.mem_cons.1 h with h | h
    · exact Or.inr (Or.inl h)
    · exact Or.inr (Or.inr h)

lemma mem_of_side {u : ResolutionThread} {l1 l2 : List ResolutionThread}
    {t : ResolutionThread} (h : u ∈ l1 ∨ u ∈ l2) : u ∈ l1 ++ t :: l2 := by
  rcases h with h | h
  · exact List.mem_append.2 (Or.inl h)
  · exact List.mem_append.2 (Or.inr (List.mem_cons.2 (Or.inr h)))

/-- A bystander in the critical section forces the side count past zero. -/
lemma wcs_side_count (l1 l2 : List ResolutionThread) (u : ResolutionThread)
    (hu : u ∈ l1 ∨ u ∈ l2) (hwu : wcs u = true) :
    1 ≤ countWcs l1 + countWcs l2 := by
  rcases hu with h | h
  · have hm : u ∈ l1.filter wcs := List.mem_filter.2 ⟨h, hwu⟩
    have h1 : 0 < countWcs l1 := List.length_pos_of_mem hm
    omega
  · have hm : u ∈ l2.filter wcs := List.mem_filter.2 ⟨h, hwu⟩
    have h1 : 0 < countWcs l2 := List.length_pos_of_mem hm
    omega

/-- The invariant is preserved by every step. -/
lemma resolutionInv_step {s s' : ResolutionState} (hs : ResolutionInv s)
    (hstep : ResolutionStep s s') : ResolutionInv s' := by
  obtain ⟨hctr, hwcs, hret, hcons, hdone⟩ := hs
  cases hstep with
  | readHit mp ctr c l1 l2 t hpc hm =>
    rw [countWcs_decomp] at hwcs
    have hwt : wcs t = false := by simp [wcs, hpc]
    have hwt' : wcs { t with pc := .done, ret := some c } = false := by simp [wcs]
    have hc0 : c = 0 := by
      rcases hctr with ⟨_, h⟩ | ⟨_, h⟩
      · rw [hm] at h; cases h
      · rw [hm] at h; injection h
    refine ⟨hctr, ?_, ?_, ?_, ?_⟩
    · rw [countWcs_decomp, hwt']
      rw [hwt] at hwcs
      simp at hwcs ⊢
      omega
    · intro u hu d hd
      rcases mem_decomp hu with h | h | h
      · exact hret u (mem_of_side (Or.inl h)) d hd
      · subst h
        simp only [Option.some.injEq] at hd
        subst hd
        refine ⟨hc0, ?_⟩
        show mp = some 0
        rw [hm, hc0]
      · exact hret u (mem_of_side (Or.inr h)) d hd
    · intro u hu hupc
      rcases mem_decomp hu with h | h | h
      · exact hcons u (mem_of_side (Or.inl h)) hupc
      · subst h; cases hupc
      · exact hcons u (mem_of_side (Or.inr h)) hupc
    · intro u hu hupc
      rcases mem_decomp hu with h | h | h
      · exact hdone u (mem_of_side (Or.inl h)) hupc
      · subst h; rfl
      · exact hdone u (mem_of_side (Or.inr h)) hupc
  | readMiss mp ctr l1 l2 t hpc hm =>
    rw [countWcs_decomp] at hwcs
    have hwt : wcs t = false := by simp [wcs, hpc]
    have hwt' : wcs { t with pc := .wantWrite } = false := by simp [wcs]
    refine ⟨hctr, ?_, ?_, ?_, ?_⟩
    · rw [countWcs_decomp, hwt']
      rw [hwt] at hwcs
      simp at hwcs ⊢
      omega
    · intro u hu d hd
      rcases mem_decomp hu with h | h | h
      · exact hret u (mem_of_side (Or.inl h)) d hd
      · subst h
        exact hret t (List.mem_append.2 (Or.inr (List.mem_cons_self t l2))) d hd
      · exact hret u (mem_of_side (Or.inr h)) d hd
    · intro u hu hupc
      rcases mem_decomp hu with h | h | h
      · exact hcons u (mem_of_side (Or.inl h)) hupc
      · subst h; cases hupc
      · exact hcons u (mem_of_side (Or.inr h)) hupc
    · intro u hu hupc
      rcases mem_decomp hu with h | h | h
      · exact hdone u (mem_of_side (Or.inl h)) hupc
      · subst h; rcases hupc with h | h <;> cases h
      · exact hdone u (mem_of_side (Or.inr h)) hupc
  | wacquire mp ctr l1 l2 t hpc =>
    rw [countWcs_decomp] at hwcs
    have hwt : wcs t = false := by simp [wcs, hpc]
    have hwt' : wcs { t with pc := .recheck } = true := by simp [wcs]
    rw [hwt] at hwcs
    simp at hwcs
    refine ⟨hctr, ?_, ?_, ?_, ?_⟩
    · rw [countWcs_decomp, hwt']
      simp at hwcs ⊢
      omega
    · intro u hu d hd
      rcases mem_decomp hu with h | h | h
      · exact hret u (mem_of_side (Or.inl h)) d hd
      · subst h
        exact hret t (List.mem_append.2 (Or.inr (List.mem_cons_self t l2))) d hd
      · exact hret u (mem_of_side (Or.inr h)) d hd
    · intro u hu hupc
      rcases mem_decomp hu with h | h | h
      · exact hcons u (mem_of_side (Or.inl h)) hupc
      · subst h; cases hupc
      · exact hcons u (mem_of_side (Or.inr h)) hupc
    · intro u hu hupc
      rcases mem_decomp hu with h | h | h
      · exact hdone u (mem_of_side (Or.inl h)) hupc
      · subst h; rcases hupc with h | h <;> cases h
      · exact hdone u (mem_of_side (Or.inr h)) hupc
  | recheckHit wr mp ctr c l1 l2 t hpc hm =>
    rw [countWcs_decomp] at hwcs
    have hwt : wcs t = true := by simp [wcs, hpc]
    have hwt' : wcs { t with pc := .unlockDone, ret := some c } = true := by simp [wcs]
    have hc0 : c = 0 := by
      rcases hctr with ⟨_, h⟩ | ⟨_, h⟩
      · rw [hm] at h; cases h
      · rw [hm] at h; injection h
    refine ⟨hctr, ?_, ?_, ?_, ?_⟩
    · rw [countWcs_decomp, hwt']
      rw [hwt] at hwcs
      simp at hwcs ⊢
      omega
    · intro u hu d hd
      rcases mem_decomp hu with h | h | h
      · exact hret u (mem_of_side (Or.inl h)) d hd
      · subst h
        simp only [Option.some.injEq] at hd
        subst hd
        refine ⟨hc0, ?_⟩
        show mp = some 0
        rw [hm, hc0]
      · exact hret u (mem_of_side (Or.inr h)) d hd
    · intro u hu hupc
      rcases mem_decomp hu with h | h | h
      · exact hcons u (mem_of_side (Or.inl h)) hupc
      · subst h; cases hupc
      · exact hcons u (mem_of_side (Or.inr h)) hupc
    · intro u hu hupc
      rcases mem_decomp hu with h | h | h
      · exact hdone u (mem_of_side (Or.inl h)) hupc
      · subst h; rfl
      · exact hdone u (mem_of_side (Or.inr h)) hupc
  | recheckMiss wr mp ctr l1 l2 t hpc hm =>
    rw [countWcs_decomp] at hwcs
    have hwt : wcs t = true := by simp [wcs, hpc]
    have hwt' : wcs { t with pc := .construct } = true := by simp [wcs]
    refine ⟨hctr, ?_, ?_, ?_, ?_⟩
    · rw [countWcs_decomp, hwt']
      rw [hwt] at hwcs
      simp at hwcs ⊢
      omega
    · intro u hu d hd
      rcases mem_decomp hu with h | h | h
      · exact hret u (mem_of_side (Or.inl h)) d hd
      · subst h
        exact hret t (List.mem_append.2 (Or.inr (List.mem_cons_self t l2))) d hd
      · exact hret u (mem_of_side (Or.inr h)) d hd
    · intro u hu hupc
      exact hm
    · intro u hu hupc
      rcases mem_decomp hu with h | h | h
      · exact hdone u (mem_of_side (Or.inl h)) hupc
      · subst h; rcases hupc with h | h <;> cases h
      · exact hdone u (mem_of_side (Or.inr h)) hupc
  | constructStep wr mp ctr l1 l2 t hpc =>
    rw [countWcs_decomp] at hwcs
    dsimp only at hwcs
    have hwt : wcs t = true := by simp [wcs, hpc]
    have hwt' : wcs { t with pc := .unlockDone, ret := some ctr } = true := by simp [wcs]
    rw [hwt] at hwcs
    have hmn : mp = none :=
      hcons t (List.mem_append.2 (Or.inr (List.mem_cons_self t l2))) hpc
    have hc0 : ctr = 0 := by
      rcases hctr with ⟨h, _⟩ | ⟨_, h⟩
      · exact h
      · rw [hmn] at h; cases h
    have hside : countWcs l1 + countWcs l2 = 0 := by
      by_cases hw : wr = true
      · rw [hw] at hwcs
        simp at hwcs
        omega
      · rw [Bool.not_eq_true] at hw
        rw [hw] at hwcs
        simp at hwcs
    have hwr : wr = true := by
      by_cases hw : wr = true
      · exact hw
      · rw [Bool.not_eq_true] at hw
        rw [hw] at hwcs
        simp at hwcs
    refine ⟨Or.inr ⟨?_, ?_⟩, ?_, ?_, ?_, ?_⟩
    · show ctr + 1 = 1
      omega
    · show some ctr = some 0
      rw [hc0]
    · rw [countWcs_decomp, hwt', hwr]
      simp
      omega
    · intro u hu d hd
      rcases mem_decomp hu with h | h | h
      · obtain ⟨_, hmap⟩ := hret u (mem_of_side (Or.inl h)) d hd
        rw [hmn] at hmap
        cases hmap
      · subst h
        simp only [Option.some.injEq] at hd
        subst hd
        refine ⟨hc0, ?_⟩
        show some ctr = some 0
        rw [hc0]
      · obtain ⟨_, hmap⟩ := hret u (mem_of_side (Or.inr h)) d hd
        rw [hmn] at hmap
        cases hmap
    · intro u hu hupc
      rcases mem_decomp hu with h | h | h
      · exfalso
        have hwu : wcs u = true := by simp [wcs, hupc]
        have := wcs_side_count l1 l2 u (Or.inl h) hwu
        omega
      · subst h; cases hupc
      · exfalso
        have hwu : wcs u = true := by simp [wcs, hupc]
        have := wcs_side_count l1 l2 u (Or.inr h) hwu
        omega
    · intro u hu hupc
      rcases mem_decomp hu with h | h | h
      · exact hdone u (mem_of_side (Or.inl h)) hupc
      · subst h; rfl
      · exact hdone u (mem_of_side (Or.inr h)) hupc
  | wrelease wr mp ctr l1 l2 t hpc =>
    rw [countWcs_decomp] at hwcs
    dsimp only at hwcs
    have hwt : wcs t = true := by simp [wcs, hpc]
    have hwt' : wcs { t with pc := .done } = false := by simp [wcs]
    rw [hwt] at hwcs
    have hside : countWcs l1 + countWcs l2 = 0 := by
      by_cases hw : wr = true
      · rw [hw] at hwcs
        simp at hwcs
        omega
      · rw [Bool.not_eq_true] at hw
        rw [hw] at hwcs
        simp at hwcs
    refine ⟨hctr, ?_, ?_, ?_, ?_⟩
    · rw [countWcs_decomp, hwt']
      simp
      omega
    · intro u hu d hd
      rcases mem_decomp hu with h | h | h
      · exact hret u (mem_of_side (Or.inl h)) d hd
      · subst h
        exact hret t (List.mem_append.2 (Or.inr (List.mem_cons_self t l2))) d hd
      · exact hret u (mem_of_side (Or.inr h)) d hd
    · intro u hu hupc
      rcases mem_decomp hu with h | h | h
      · exact hcons u (mem_of_side (Or.inl h)) hupc
      · subst h; cases hupc
      · exact hcons u (mem_of_side (Or.inr h)) hupc
    · intro u hu hupc
      rcases mem_decomp hu with h | h | h
      · exact hdone u (mem_of_side (Or.inl h)) hupc
      · subst h
        exact hdone t (List.mem_append.2 (Or.inr (List.mem_cons_self t l2)))
          (Or.inr hpc)
      · exact hdone u (mem_of_side (Or.inr h)) hupc

/-- The invariant holds in every reachable state. -/
lemma resolutionInv_reach {n : Nat} {s : ResolutionState}
    (h : Relation.ReflTransGen ResolutionStep (initPool n) s) : ResolutionInv s := by
  induction h with
  | refl => exact resolutionInv_init n
  | tail _ hstep ih => exact resolutionInv_step ih hstep

/-- C9: in every state reachable by interleaving N resolution calls for the
same network against a cold adapter, at most one client has ever been
constructed; every finished call returned the same instance (the client with
construction index 0); and as soon as any call has finished, exactly one
client exists and it is cached in the pool. -/
theorem claim_C9 (n : Nat) (s : ResolutionState)
    (h : Relation.ReflTransGen ResolutionStep (initPool n) s) :
    s.ctr ≤ 1 ∧
    (∀ t ∈ s.threads, t.pc = .done → t.ret = some 0) ∧
    ((∃ t ∈ s.threads, t.pc = .done) → s.ctr = 1 ∧ s.map = some 0) := by
  obtain ⟨hctr, _, hret, _, hdone⟩ := resolutionInv_reach h
  refine ⟨?_, ?_, ?_⟩
  · rcases hctr with ⟨h1, _⟩ | ⟨h1, _⟩ <;> omega
  · intro t ht hpc
    have hsome := hdone t ht (Or.inl hpc)
    obtain ⟨c, hc⟩ := Option.isSome_iff_exists.1 hsome
    have := hret t ht c hc
    rw [hc, this.1]
  · rintro ⟨t, ht, hpc⟩
    have hsome := hdone t ht (Or.inl hpc)
    obtain ⟨c, hc⟩ := Option.isSome_iff_exists.1 hsome
    have hmap := (hret t ht c hc).2
    rcases hctr with ⟨_, h1⟩ | ⟨h1, _⟩
    · rw [hmap] at h1
      cases h1
    · exact ⟨h1, hmap⟩

/-- C9 (witness): a concrete interleaving of two calls - thread 0 misses the
optimistic read, acquires the write lock, re-checks, constructs and releases;
thread 1 then hits on the optimistic read - ends with one constructed
client, cached, and both calls returning it. -/
theorem claim_C9_witness :
    (⟨false, some 0, 1, [⟨.done, some 0⟩, ⟨.done, some 0⟩]⟩ : ResolutionState).ctr = 1 ∧
    (⟨false, some 0, 1, [⟨.done, some 0⟩, ⟨.done, some 0⟩]⟩ : ResolutionState).map = some 0 := by
  have h1 : ResolutionStep (initPool 2)
      ⟨false, none, 0, [⟨.wantWrite, none⟩, ⟨.start, none⟩]⟩ :=
    ResolutionStep.readMiss none 0 [] [⟨.start, none⟩] ⟨.start, none⟩ rfl rfl
  have h2 : ResolutionStep ⟨false, none, 0, [⟨.wantWrite, none⟩, ⟨.start, none⟩]⟩
      ⟨true, none, 0, [⟨.recheck, none⟩, ⟨.start, none⟩]⟩ :=
    ResolutionStep.wacquire none 0 [] [⟨.start, none⟩] ⟨.wantWrite, none⟩ rfl
  have h3 : ResolutionStep ⟨true, none, 0, [⟨.recheck, none⟩, ⟨.start, none⟩]⟩
      ⟨true, none, 0, [⟨.construct, none⟩, ⟨.start, none⟩]⟩ :=
    ResolutionStep.recheckMiss true none 0 [] [⟨.start, none⟩] ⟨.recheck, none⟩ rfl rfl
  have h4 : ResolutionStep ⟨true, none, 0, [⟨.construct, none⟩, ⟨.start, none⟩]⟩
      ⟨true, some 0, 1, [⟨.unlockDone, some 0⟩, ⟨.start, none⟩]⟩ :=
    ResolutionStep.constructStep true none 0 [] [⟨.start, none⟩] ⟨.construct, none⟩ rfl
  have h5 : ResolutionStep ⟨true, some 0, 1, [⟨.unlockDone, some 0⟩, ⟨.start, none⟩]⟩
      ⟨false, some 0, 1, [⟨.done, some 0⟩, ⟨.start, none⟩]⟩ :=
    ResolutionStep.wrelease true (some 0) 1 [] [⟨.start, none⟩] ⟨.unlockDone, some 0⟩ rfl
  have h6 : ResolutionStep ⟨false, some 0, 1, [⟨.done, some 0⟩, ⟨.start, none⟩]⟩
      ⟨false, some 0, 1, [⟨.done, some 0⟩, ⟨.done, some 0⟩]⟩ :=
    ResolutionStep.readHit (some 0) 1 0 [⟨.done, some 0⟩] [] ⟨.start, none⟩ rfl rfl
  have hreach : Relation.ReflTransGen ResolutionStep (initPool 2)
      ⟨false, some 0, 1, [⟨.done, some 0⟩, ⟨.done, some 0⟩]⟩ :=
    .tail (.tail (.tail (.tail (.tail (.tail .refl h1) h2) h3) h4) h5) h6
  exact (claim_C9 2 _ hreach).2.2 ⟨⟨.done, some 0⟩, by simp, rfl⟩

/-- C10: CacheHash on a nil request pointer returns the empty fingerprint
and no error. -/
theorem claim_C10 : CacheHashPtr none = .ok "" := rfl

end Erpc
